import Mathlib

/-!
# Verification of the simplerank leaderboard service

A shallow embedding of the core of the `hiamthach108/simplerank` repository:

* the Redis sorted-set (ZSET) layer behind `pkg/cache/cache.go` and the
  leaderboard query methods `AddScore`, `GetTopN`, `GetRank`, `RemoveMember`,
  `GetAroundMember` built on it;
* the Redis-stream layer (`Publish`, `EnsureGroup`, `Subscribe`) of the same
  file;
* the leaderboard service (`internal/service/leaderboard.go`);
* the WebSocket hub (`presentation/socket/broadcaster.go`).

Scores are `float64` in Go; every claim about them depends only on their
total order, so they are modelled by `Int`.  Member identifiers are strings,
ordered lexicographically exactly as Redis orders tied members.
-/

/-! ## Redis sorted sets

A sorted set is stored as a member → score association list with no duplicate
members.  Redis keeps the elements ordered by score ascending, ties broken by
member in ascending lexicographic order; the `ZREV*` commands traverse that
order backwards (score descending, ties member descending). -/

abbrev Score := Int

abbrev ZSet := List (String × Score)

/-- Well-formedness of a sorted set: each member appears at most once
(`ZADD` upserts, so duplicates never arise). -/
def ZSet.WF (s : ZSet) : Prop := (s.map Prod.fst).Nodup

instance : DecidablePred ZSet.WF := fun s => by
  unfold ZSet.WF; infer_instance

/-- Redis breaks score ties comparing members with `memcmp`: lexicographic
order on the underlying bytes.  Modelled as lexicographic order on the
member's character list (computable, so that queries evaluate). -/
def memberLtb : List Char → List Char → Bool
  | _, [] => false
  | [], _ :: _ => true
  | a :: as, b :: bs => if a < b then true else if b < a then false else memberLtb as bs

/-- Strict lexicographic member order. -/
def memLt (x y : String) : Prop := memberLtb x.data y.data = true

/-- Non-strict lexicographic member order. -/
def memLe (x y : String) : Prop := memLt x y ∨ x = y

instance : DecidableRel memLt := fun x y => by unfold memLt; infer_instance

instance : DecidableRel memLe := fun x y => by unfold memLe; infer_instance

theorem memberLtb_tricho :
    ∀ x y : List Char, memberLtb x y = true ∨ x = y ∨ memberLtb y x = true
  | [], [] => Or.inr (Or.inl rfl)
  | [], _ :: _ => Or.inl rfl
  | _ :: _, [] => Or.inr (Or.inr rfl)
  | a :: as, b :: bs => by
    by_cases hab : a < b
    · left; simp [memberLtb, hab]
    · by_cases hba : b < a
      · right; right; simp [memberLtb, hba]
      · have hab2 : a = b := le_antisymm (not_lt.mp hba) (not_lt.mp hab)
        subst hab2
        rcases memberLtb_tricho as bs with h | h | h
        · left; simp [memberLtb, lt_irrefl, h]
        · right; left; rw [h]
        · right; right; simp [memberLtb, lt_irrefl, h]

theorem memberLtb_cons_iff (a b : Char) (as bs : List Char) :
    memberLtb (a :: as) (b :: bs) = true ↔
      a < b ∨ (a = b ∧ memberLtb as bs = true) := by
  rw [memberLtb]
  rcases lt_trichotomy a b with h | h | h
  · simp [h]
  · subst h
    simp [lt_irrefl]
  · simp [asymm h, h, ne_of_gt h]

theorem memberLtb_trans :
    ∀ x y z : List Char, memberLtb x y = true → memberLtb y z = true →
      memberLtb x z = true := by
  intro x
  induction x with
  | nil =>
    intro y z h1 h2
    match y, z with
    | [], _ => exact absurd h1 (by simp [memberLtb])
    | _ :: _, [] => exact absurd h2 (by simp [memberLtb])
    | _ :: _, _ :: _ => rfl
  | cons a as ih =>
    intro y z h1 h2
    match y, z with
    | [], _ => exact absurd h1 (by simp [memberLtb])
    | _ :: _, [] => exact absurd h2 (by simp [memberLtb])
    | b :: bs, c :: cs =>
      rw [memberLtb_cons_iff] at h1 h2 ⊢
      rcases h1 with h1 | ⟨rfl, h1⟩
      · rcases h2 with h2 | ⟨rfl, h2⟩
        · exact Or.inl (h1.trans h2)
        · exact Or.inl h1
      · rcases h2 with h2 | ⟨rfl, h2⟩
        · exact Or.inl h2
        · exact Or.inr ⟨rfl, ih bs cs h1 h2⟩

theorem memLe_total (x y : String) : memLe x y ∨ memLe y x := by
  rcases memberLtb_tricho x.data y.data with h | h | h
  · exact Or.inl (Or.inl h)
  · exact Or.inl (Or.inr (by
      cases x with
      | mk dx =>
        cases y with
        | mk dy => exact congrArg String.mk (by simpa using h)))
  · exact Or.inr (Or.inl h)

theorem memLe_trans {x y z : String} (h1 : memLe x y) (h2 : memLe y z) :
    memLe x z := by
  rcases h1 with h1 | rfl
  · rcases h2 with h2 | rfl
    · exact Or.inl (memberLtb_trans _ _ _ h1 h2)
    · exact Or.inl h1
  · exact h2

theorem memLe.lt_of_ne {x y : String} (h : memLe x y) (hne : x ≠ y) :
    memLt x y := h.resolve_right hne

/-- `a` comes no later than `b` in the reversed (ZREV) traversal order:
score descending, ties by member descending. -/
def revLE (a b : String × Score) : Prop :=
  b.2 < a.2 ∨ (a.2 = b.2 ∧ memLe b.1 a.1)

instance : DecidableRel revLE := fun a b => by
  unfold revLE; infer_instance

instance : IsTotal (String × Score) revLE where
  total a b := by
    unfold revLE
    rcases lt_trichotomy a.2 b.2 with h | h | h
    · exact Or.inr (Or.inl h)
    · rcases memLe_total a.1 b.1 with h1 | h1
      · exact Or.inr (Or.inr ⟨h.symm, h1⟩)
      · exact Or.inl (Or.inr ⟨h, h1⟩)
    · exact Or.inl (Or.inl h)

instance : IsTrans (String × Score) revLE where
  trans a b c hab hbc := by
    unfold revLE at *
    rcases hab with h1 | ⟨h1, h1'⟩ <;> rcases hbc with h2 | ⟨h2, h2'⟩
    · exact Or.inl (h2.trans h1)
    · exact Or.inl (by rw [← h2]; exact h1)
    · exact Or.inl (by rw [h1]; exact h2)
    · exact Or.inr ⟨h1.trans h2, memLe_trans h2' h1'⟩

/-- The sequence a `ZREVRANGE` over the whole set would produce:
the set's elements sorted by score descending, ties by member descending. -/
def zrevList (s : ZSet) : List (String × Score) := List.insertionSort revLE s

/-- Redis index normalisation shared by `ZRANGE`/`ZREVRANGE`: negative
indices count from the end, the window is clamped to the list, and an
inverted window is empty.  Mirrors the range handling in Redis itself. -/
def redisRange (l : List (String × Score)) (start stop : Int) : List (String × Score) :=
  let n : Int := l.length
  let start1 := if start < 0 then n + start else start
  let stop1 := if stop < 0 then n + stop else stop
  let start2 := if start1 < 0 then 0 else start1
  if start2 > stop1 ∨ start2 ≥ n then []
  else
    let stop2 := if stop1 ≥ n then n - 1 else stop1
    (l.drop start2.toNat).take (stop2 - start2 + 1).toNat

/-- `ZADD key score member`: upsert the member's score. -/
def zadd (s : ZSet) (m : String) (sc : Score) : ZSet :=
  if s.any (fun p => p.1 = m) then
    s.map (fun p => if p.1 = m then (m, sc) else p)
  else s ++ [(m, sc)]

/-- `ZREM key member`. -/
def zrem (s : ZSet) (m : String) : ZSet := s.filter (fun p => ¬ p.1 = m)

/-- `ZSCORE key member`: `none` models the `redis.Nil` error. -/
def zscore (s : ZSet) (m : String) : Option Score :=
  (s.find? (fun p => p.1 = m)).map Prod.snd

/-- `ZREVRANK key member` (0-based; `none` models `redis.Nil`). -/
def zrevrank (s : ZSet) (m : String) : Option Int :=
  ((zrevList s).findIdx? (fun p => p.1 = m)).map Int.ofNat

/-- `ZREVRANGE key start stop WITHSCORES`. -/
def zrevrangeWithScores (s : ZSet) (start stop : Int) : List (String × Score) :=
  redisRange (zrevList s) start stop

/-! ## The leaderboard methods of `appCache` (pkg/cache/cache.go)

`LeaderboardEntry{Member, Score}` is the pair produced from each `redis.Z`;
we keep it as a structure mirroring the Go struct. -/

structure LeaderboardEntry where
  member : String
  score : Score
deriving DecidableEq, Repr

/-- The conversion loop `entries[i] = LeaderboardEntry{Member: z.Member, Score: z.Score}`. -/
def toEntries (l : List (String × Score)) : List LeaderboardEntry :=
  l.map (fun p => ⟨p.1, p.2⟩)

/-- `appCache.AddScore`: `ZADD boardKey score member`. -/
def AddScore (s : ZSet) (m : String) (sc : Score) : ZSet := zadd s m sc

/-- `appCache.GetTopN`: `ZREVRANGE boardKey 0 (n-1) WITHSCORES`, converted to entries. -/
def GetTopN (s : ZSet) (n : Int) : List LeaderboardEntry :=
  toEntries (zrevrangeWithScores s 0 (n - 1))

/-- `appCache.GetRank`: `ZREVRANK` then `ZSCORE`; returns the 1-based rank and
the score, or `none` for the `redis.Nil` (member absent) error path. -/
def GetRank (s : ZSet) (m : String) : Option (Int × Score) :=
  match zrevrank s m with
  | none => none
  | some rank =>
    match zscore s m with
    | none => none
    | some sc => some (rank + 1, sc)

/-- `appCache.RemoveMember`: `ZREM boardKey member`. -/
def RemoveMember (s : ZSet) (m : String) : ZSet := zrem s m

/-- `appCache.GetAroundMember`: `ZREVRANK`, clamp `start := rank - radius` at 0,
then `ZREVRANGE start (rank+radius)`; `none` models the `redis.Nil` error when
the member is absent. -/
def GetAroundMember (s : ZSet) (m : String) (radius : Int) : Option (List LeaderboardEntry) :=
  match zrevrank s m with
  | none => none
  | some rank =>
    let start := rank - radius
    let start := if start < 0 then 0 else start
    some (toEntries (zrevrangeWithScores s start (rank + radius)))

/-! ## Basic facts about the ZREV order -/

theorem zrevList_perm (s : ZSet) : List.Perm (zrevList s) s :=
  List.perm_insertionSort revLE s

theorem zrevList_sorted (s : ZSet) : (zrevList s).Pairwise revLE :=
  List.sorted_insertionSort revLE s

theorem zrevList_length (s : ZSet) : (zrevList s).length = s.length :=
  (zrevList_perm s).length_eq

theorem zrevList_keyNodup (s : ZSet) (h : s.WF) :
    ((zrevList s).map Prod.fst).Nodup :=
  (((zrevList_perm s).map Prod.fst).nodup_iff).mpr h

/-- The strict per-pair order the amended C6 asserts on query output:
score strictly descending, ties member strictly descending. -/
def entryRevLT (a b : LeaderboardEntry) : Prop :=
  b.score < a.score ∨ (a.score = b.score ∧ memLt b.member a.member)

theorem pairwise_and_of {α : Type} {R S : α → α → Prop} :
    ∀ {l : List α}, l.Pairwise R → l.Pairwise S →
      l.Pairwise (fun a b => R a b ∧ S a b)
  | [], _, _ => List.Pairwise.nil
  | _ :: _, .cons hR hRs, .cons hS hSs =>
    List.Pairwise.cons (fun b hb => ⟨hR b hb, hS b hb⟩) (pairwise_and_of hRs hSs)

theorem redisRange_sublist (l : List (String × Score)) (a b : Int) :
    (redisRange l a b).Sublist l := by
  simp only [redisRange]
  split_ifs <;>
    first
      | exact List.nil_sublist l
      | exact ((List.take_sublist _ _).trans (List.drop_sublist _ _))

theorem zrevList_pairwise_strict (s : ZSet) (h : s.WF) :
    (zrevList s).Pairwise
      (fun a b => b.2 < a.2 ∨ (a.2 = b.2 ∧ memLt b.1 a.1)) := by
  have hnd : (zrevList s).Pairwise (fun a b => a.1 ≠ b.1) :=
    (List.pairwise_map).mp (zrevList_keyNodup s h)
  refine (pairwise_and_of (zrevList_sorted s) hnd).imp ?_
  rintro a b ⟨hle | ⟨heq, hle⟩, hne⟩
  · exact Or.inl hle
  · exact Or.inr ⟨heq, hle.lt_of_ne (fun hc => hne hc.symm)⟩

/-- C5, failing input: the repository's own test
(`cache_test.go`, "GetTopN with zero") expects `GetTopN(board, 0)` to return
an empty list, but the code issues `ZREVRANGE board 0 -1`, and in Redis a
`-1` stop index denotes the last element, so the whole set comes back.
Evaluated here on a one-member board. -/
theorem getTopN_zero_returns_all :
    GetTopN [("player1", 100)] 0 = [⟨"player1", 100⟩] ∧
      GetTopN [("player1", 100)] 0 ≠ [] := by
  exact ⟨by decide, by decide⟩

/-- C6, counterexample: two members with equal score come back in
descending member order (`ZREVRANGE` reverses the ascending tie-break),
not ascending as the claim states: with members "a" < "b" at the same
score, `GetTopN` yields "b" before "a". -/
theorem getTopN_tie_descending :
    GetTopN [("a", 5), ("b", 5)] 2 = [⟨"b", 5⟩, ⟨"a", 5⟩] ∧ memLt "a" "b" := by
  exact ⟨by decide, by decide⟩

/-- C6 (amended): on a well-formed board, `GetTopN` output is sorted by the
total order: score descending and, for equal scores, member identifier
DESCENDING (lexically) — not ascending. -/
theorem getTopN_order (s : ZSet) (h : s.WF) (n : Int) :
    (GetTopN s n).Pairwise entryRevLT := by
  have hsub : (zrevrangeWithScores s 0 (n - 1)).Sublist (zrevList s) :=
    redisRange_sublist _ _ _
  have hp := (zrevList_pairwise_strict s h).sublist hsub
  unfold GetTopN toEntries
  rw [List.pairwise_map]
  exact hp.imp (fun {a b} hab => hab)

/-- Witness for `getTopN_order` at a concrete well-formed board. -/
theorem getTopN_order_witness :
    ZSet.WF [("a", 5), ("b", 5), ("c", 7)] ∧
      (GetTopN [("a", 5), ("b", 5), ("c", 7)] 3).Pairwise entryRevLT :=
  ⟨by decide, getTopN_order [("a", 5), ("b", 5), ("c", 7)] (by decide) 3⟩

/-! ## C7: GetRank is 1-based, returns the current score, and is consistent
with GetTopN's ordering -/

theorem findIdx_key_aux {m : String} :
    ∀ (l : List (String × Score)) (j i : Nat) (hi : i < l.length),
      (l.map Prod.fst).Nodup → (l.get ⟨i, hi⟩).1 = m →
      l.findIdx? (fun p => p.1 = m) j = some (j + i) := by
  intro l
  induction l with
  | nil => intro j i hi; exact absurd hi (by simp)
  | cons x xs ih =>
    intro j i hi hnd hget
    match i with
    | 0 =>
      have hx : x.1 = m := hget
      rw [List.findIdx?_cons, if_pos (by simpa using hx)]
      simp
    | i + 1 =>
      have hi2 : i < xs.length := by simpa using hi
      have hmem : m ∈ xs.map Prod.fst := by
        have hg2 : (xs.get ⟨i, hi2⟩).1 = m := hget
        exact hg2 ▸ List.mem_map_of_mem Prod.fst (List.get_mem xs i hi2)
      have hx : ¬ x.1 = m := by
        intro hc
        rw [List.map_cons, List.nodup_cons] at hnd
        exact hnd.1 (hc ▸ hmem)
      rw [List.findIdx?_cons, if_neg (by simpa using hx)]
      have := ih (j + 1) i (by simpa using hi)
        (by rw [List.map_cons, List.nodup_cons] at hnd; exact hnd.2) hget
      rw [this]
      congr 1
      omega

theorem zrevrank_of_get {s : ZSet} (hwf : s.WF) {m : String} {i : Nat}
    (hi : i < (zrevList s).length) (hget : ((zrevList s).get ⟨i, hi⟩).1 = m) :
    zrevrank s m = some (Int.ofNat i) := by
  unfold zrevrank
  rw [findIdx_key_aux (zrevList s) 0 i hi (zrevList_keyNodup s hwf) hget]
  simp

theorem zrevrank_of_absent {s : ZSet} {m : String}
    (h : m ∉ s.map Prod.fst) : zrevrank s m = none := by
  unfold zrevrank
  rw [List.findIdx?_eq_none_iff.mpr]
  · rfl
  · intro x hx
    simp only [decide_eq_false_iff_not]
    intro hc
    exact h (hc ▸ List.mem_map_of_mem Prod.fst ((zrevList_perm s).mem_iff.mp hx))

theorem zscore_of_mem {s : ZSet} (hwf : s.WF) {m : String} {sc : Score}
    (hmem : (m, sc) ∈ s) : zscore s m = some sc := by
  unfold zscore
  induction s with
  | nil => cases hmem
  | cons x xs ih =>
    by_cases hx : x.1 = m
    · rcases List.mem_cons.mp hmem with heq | hmem2
      · rw [List.find?_cons_of_pos _ (by simpa using hx), ← heq]
        rfl
      · exfalso
        have : m ∈ xs.map Prod.fst := List.mem_map_of_mem Prod.fst hmem2
        rw [ZSet.WF, List.map_cons, List.nodup_cons] at hwf
        exact hwf.1 (hx ▸ this)
    · have hmem2 : (m, sc) ∈ xs := by
        rcases List.mem_cons.mp hmem with heq | hmem2
        · exact absurd (by rw [← heq]) hx
        · exact hmem2
      rw [List.find?_cons_of_neg _ (by simpa using hx)]
      exact ih (by rw [ZSet.WF, List.map_cons, List.nodup_cons] at hwf; exact hwf.2) hmem2

theorem zscore_of_absent {s : ZSet} {m : String}
    (h : m ∉ s.map Prod.fst) : zscore s m = none := by
  unfold zscore
  rw [List.find?_eq_none.mpr]
  · rfl
  · intro x hx
    simp only [decide_eq_true_eq]
    intro hc
    exact h (hc ▸ List.mem_map_of_mem Prod.fst hx)

theorem redisRange_zero_start (l : List (String × Score)) (b : Int) :
    ∃ k : Nat, redisRange l 0 b = l.take k := by
  simp only [redisRange]
  norm_num
  split_ifs <;> first | exact ⟨_, rfl⟩ | exact ⟨0, by simp⟩

/-- C7: `GetRank` is 1-based and returns the member's current score; it is
consistent with `GetTopN` ordering (the entry at 0-based position `i` of any
`GetTopN` result has rank `i+1`); it fails with the not-found error
(`redis.Nil`, modelled `none`) exactly when the member is absent. -/
theorem getRank_consistent (s : ZSet) (hwf : s.WF) (m : String) :
    (∀ (n : Int) (i : Nat) (e : LeaderboardEntry),
        (GetTopN s n).get? i = some e → e.member = m →
        GetRank s m = some ((i : Int) + 1, e.score)) ∧
      (m ∉ s.map Prod.fst → GetRank s m = none) ∧
      (∀ r sc, GetRank s m = some (r, sc) → 1 ≤ r ∧ zscore s m = some sc) := by
  refine ⟨?_, ?_, ?_⟩
  · intro n i e hie hm
    obtain ⟨k, hk⟩ := redisRange_zero_start (zrevList s) (n - 1)
    have hG : GetTopN s n = toEntries ((zrevList s).take k) := by
      unfold GetTopN zrevrangeWithScores
      rw [hk]
    rw [hG] at hie
    unfold toEntries at hie
    rw [List.get?_map] at hie
    obtain ⟨p, hp, hpe⟩ := Option.map_eq_some'.mp hie
    have hik : i < k := by
      obtain ⟨hlen, -⟩ := List.get?_eq_some.mp hp
      simpa using lt_of_lt_of_le hlen (by simp)
    have hpl : (zrevList s).get? i = some p := by
      rw [← List.get?_take hik]
      exact hp
    obtain ⟨hi2, hget⟩ := List.get?_eq_some.mp hpl
    have hep : e.member = p.1 := by rw [← hpe]
    have hm1 : ((zrevList s).get ⟨i, hi2⟩).1 = m := by
      rw [hget, ← hep]
      exact hm
    have hrank := zrevrank_of_get hwf hi2 hm1
    have hp2 : p = (m, p.2) := by
      have : p.1 = m := by rw [← hget]; exact hm1
      exact Prod.ext this rfl
    have hmem : (m, p.2) ∈ s := by
      have hin : (zrevList s).get ⟨i, hi2⟩ ∈ zrevList s := List.get_mem _ _ _
      rw [hget, hp2] at hin
      exact (zrevList_perm s).mem_iff.mp hin
    have hscore := zscore_of_mem hwf hmem
    unfold GetRank
    rw [hrank, hscore, ← hpe]
    rfl
  · intro habs
    unfold GetRank
    rw [zrevrank_of_absent habs]
  · intro r sc h
    unfold GetRank at h
    rcases hr : zrevrank s m with - | i <;> rw [hr] at h
    · cases h
    · rcases hs : zscore s m with - | sc2 <;> rw [hs] at h
      · cases h
      · simp only [Option.some.injEq, Prod.mk.injEq] at h
        obtain ⟨h1, h2⟩ := h
        have hnn : 0 ≤ i := by
          unfold zrevrank at hr
          rcases Option.map_eq_some'.mp hr with ⟨j, -, hj⟩
          rw [← hj]
          exact Int.ofNat_nonneg j
        exact ⟨by omega, by rw [h2]⟩

/-- Witness for `getRank_consistent` on the spec's Scenario A board. -/
theorem getRank_consistent_witness :
    ZSet.WF [("p1", 100), ("p2", 200), ("p3", 150)] ∧
      ((∀ (n : Int) (i : Nat) (e : LeaderboardEntry),
          (GetTopN [("p1", 100), ("p2", 200), ("p3", 150)] n).get? i = some e →
          e.member = "p1" →
          GetRank [("p1", 100), ("p2", 200), ("p3", 150)] "p1" =
            some ((i : Int) + 1, e.score)) ∧
        ("p1" ∉ ([("p1", 100), ("p2", 200), ("p3", 150)] : ZSet).map Prod.fst →
          GetRank [("p1", 100), ("p2", 200), ("p3", 150)] "p1" = none) ∧
        (∀ r sc, GetRank [("p1", 100), ("p2", 200), ("p3", 150)] "p1" = some (r, sc) →
          1 ≤ r ∧ zscore [("p1", 100), ("p2", 200), ("p3", 150)] "p1" = some sc)) :=
  ⟨by decide, getRank_consistent [("p1", 100), ("p2", 200), ("p3", 150)] (by decide) "p1"⟩

/-! ## C8: GetAroundMember returns the clamped inclusive window -/

/-- C8: for a present member at 0-based reverse rank `r` and `radius ≥ 0`,
`GetAroundMember` returns exactly the slice of the descending order covering
0-based positions `max (r-radius) 0 .. min (r+radius) (size-1)` — the
inclusive window `[rank-radius, rank+radius]` clamped at the top so its best
rank is never below 1 and truncated at the bottom by the set size — whose
length is therefore at most `2*radius+1`; for an absent member it fails with
the not-found error (`none`). -/
theorem getAroundMember_window (s : ZSet) (hwf : s.WF) (m : String) (radius : Int)
    (hrad : 0 ≤ radius) :
    (m ∉ s.map Prod.fst → GetAroundMember s m radius = none) ∧
      (∀ r : Int, zrevrank s m = some r →
        ∃ w, GetAroundMember s m radius = some w ∧
          w = toEntries (((zrevList s).drop (r - radius).toNat).take
                (min (r + radius) ((s.length : Int) - 1) - max (r - radius) 0 + 1).toNat) ∧
          w.length = (min (r + radius) ((s.length : Int) - 1) - max (r - radius) 0 + 1).toNat ∧
          w.length ≤ (2 * radius + 1).toNat) := by
  constructor
  · intro habs
    unfold GetAroundMember
    rw [zrevrank_of_absent habs]
  · intro r hr
    have hrget := hr
    unfold zrevrank at hrget
    obtain ⟨j, hfind, hj⟩ := Option.map_eq_some'.mp hrget
    obtain ⟨hjlen, -⟩ := List.findIdx?_eq_some_iff_findIdx_eq.mp hfind
    have hj2 : (j : Int) = r := hj
    have hr0 : 0 ≤ r := by omega
    have hrn : r < ((zrevList s).length : Int) := by omega
    have hlen : ((zrevList s).length : Int) = (s.length : Int) := by
      exact_mod_cast congrArg Nat.cast (zrevList_length s)
    unfold GetAroundMember
    rw [hr]
    have hzr : zrevrangeWithScores s (if r - radius < 0 then 0 else r - radius)
        (r + radius) =
        ((zrevList s).drop (r - radius).toNat).take
          (min (r + radius) ((s.length : Int) - 1) - max (r - radius) 0 + 1).toNat := by
      simp only [zrevrangeWithScores, redisRange]
      rw [← hlen]
      split_ifs <;>
        first
          | (exfalso; omega)
          | (congr 1 <;> first | omega | (congr 1 <;> first | rfl | omega))
    refine ⟨_, rfl, by rw [hzr], ?_, ?_⟩
    · rw [hzr]
      unfold toEntries
      rw [List.length_map, List.length_take, List.length_drop]
      omega
    · rw [hzr]
      unfold toEntries
      rw [List.length_map, List.length_take, List.length_drop]
      omega

/-- The spec's Scenario A board, used as concrete input by witnesses. -/
def scenarioBoard : ZSet := [("p1", 100), ("p2", 200), ("p3", 150)]

/-- Witness for `getAroundMember_window`: Scenario C, around "p3" with radius 1. -/
theorem getAroundMember_window_witness :
    (0 : Int) ≤ 1 ∧ ZSet.WF scenarioBoard ∧
      ∃ w, GetAroundMember scenarioBoard "p3" 1 = some w ∧
        w.length ≤ ((2 : Int) * 1 + 1).toNat := by
  refine ⟨by norm_num, by decide, ?_⟩
  obtain ⟨-, h2⟩ := getAroundMember_window scenarioBoard (by decide) "p3" 1 (by norm_num)
  obtain ⟨w, hw, -, -, hlen⟩ := h2 1 (by decide)
  exact ⟨w, hw, hlen⟩

/-! ## Redis streams (the stream section of pkg/cache/cache.go)

One value of `StreamSt` models a single stream key: the appended entries
(with their monotonically increasing auto-ids), and the named consumer
groups, each holding a delivery cursor and the pending (delivered but
unacknowledged) entry list. Payloads are the gob-encoded bytes, opaque here
(modelled as strings). -/

structure GroupSt where
  cursor : Nat
  pending : List (Nat × String)
deriving DecidableEq, Repr

structure StreamSt where
  created : Bool
  nextId : Nat
  entries : List (Nat × String)
  groups : List (String × GroupSt)
deriving DecidableEq, Repr

def StreamSt.empty : StreamSt :=
  { created := false, nextId := 1, entries := [], groups := [] }

def lookupGroup (st : StreamSt) (g : String) : Option GroupSt :=
  (st.groups.find? (fun p => p.1 = g)).map Prod.snd

def setGroup (st : StreamSt) (g : String) (gs : GroupSt) : StreamSt :=
  { st with groups := st.groups.map (fun p => if p.1 = g then (g, gs) else p) }

/-- `XADD key * data=...`: append with the next auto-id (ids increase). -/
def xadd (st : StreamSt) (data : String) : StreamSt :=
  { st with
    created := true
    nextId := st.nextId + 1
    entries := st.entries ++ [(st.nextId, data)] }

/-- The id of the last entry (`$`), 0 for an empty stream. -/
def lastEntryId (st : StreamSt) : Nat :=
  ((st.entries.getLast?).map Prod.fst).getD 0

/-- `XGROUP CREATE key group $ MKSTREAM`: errors with BUSYGROUP when the
group exists, otherwise creates the stream if needed and the group,
positioned at the log tail with an empty pending list. -/
def xgroupCreateMkStream (st : StreamSt) (g : String) : Except String StreamSt :=
  if st.groups.any (fun p => p.1 = g) then
    .error "BUSYGROUP Consumer Group name already exists"
  else
    .ok { st with
      created := true
      groups := st.groups ++ [(g, { cursor := lastEntryId st, pending := [] })] }

/-- `strings.Contains`, on character lists. -/
def listContains (s pat : List Char) : Bool :=
  match s with
  | [] => pat.isEmpty
  | _ :: rest => pat.isPrefixOf s || listContains rest pat

def strContains (s pat : String) : Bool := listContains s.data pat.data

/-- `appCache.Publish`: gob-encode the message and `XADD` it. -/
def Publish (st : StreamSt) (message : String) : StreamSt := xadd st message

/-- `appCache.EnsureGroup`: `XGroupCreateMkStream`, treating a BUSYGROUP
error (group already exists) as success. -/
def EnsureGroup (st : StreamSt) (g : String) : Except String StreamSt :=
  match xgroupCreateMkStream st g with
  | .ok st1 => .ok st1
  | .error e => if strContains e "BUSYGROUP" then .ok st else .error e

/-- C9: `EnsureGroup` is idempotent: the first call succeeds, and calling it
again on the resulting state succeeds and leaves the state unchanged. -/
theorem ensureGroup_idempotent (st : StreamSt) (g : String) :
    ∃ st1, EnsureGroup st g = .ok st1 ∧ EnsureGroup st1 g = .ok st1 := by
  have hb : strContains "BUSYGROUP Consumer Group name already exists" "BUSYGROUP" = true := by
    decide
  by_cases h : st.groups.any (fun p => p.1 = g) = true
  · refine ⟨st, ?_, ?_⟩ <;> simp [EnsureGroup, xgroupCreateMkStream, h, hb]
  · obtain ⟨st1, hx1, hx2⟩ :
        ∃ st1, xgroupCreateMkStream st g = .ok st1 ∧
          st1.groups.any (fun p => p.1 = g) = true := by
      unfold xgroupCreateMkStream
      rw [if_neg h]
      exact ⟨_, rfl, by simp⟩
    refine ⟨st1, ?_, ?_⟩
    · simp [EnsureGroup, hx1]
    · simp [EnsureGroup, xgroupCreateMkStream, hx2, hb]

/-! ## C2: the Subscribe consumer loop and acknowledgment -/

/-- `XREADGROUP GROUP g consumer COUNT 1 BLOCK 0 STREAMS key >`: deliver the
first entry newer than the group's cursor, advancing the cursor and adding
the entry to the group's pending list (assigned to `consumer`).  `none`
models both the blocking wait (no new entry) and the read errors the loop
merely logs before continuing. -/
def xreadGroupOne (st : StreamSt) (g consumer : String) :
    Option (StreamSt × Nat × String) :=
  match lookupGroup st g with
  | none => none
  | some gs =>
    match st.entries.find? (fun e => gs.cursor < e.1) with
    | none => none
    | some e =>
      some (setGroup st g
        { cursor := e.1, pending := gs.pending ++ [(e.1, consumer)] }, e.1, e.2)

/-- `XACK key group id`: remove the entry id from the group's pending list. -/
def xack (st : StreamSt) (g : String) (id : Nat) : StreamSt :=
  match lookupGroup st g with
  | none => st
  | some gs => setGroup st g { gs with pending := gs.pending.filter (fun p => ¬ p.1 = id) }

/-- One iteration of the goroutine loop inside `appCache.Subscribe`: read one
entry, invoke `handler.Handler(message.Values)`, then `XAck` it.  The Go
handler type is `func(message any)` — it returns nothing — so the loop
cannot observe whether the handler's body succeeded; `handlerOk` records
that invisible outcome (e.g. whether the history subscriber's decode/Record
steps succeeded before it logged and returned). -/
def subscribeIteration (st : StreamSt) (g consumer : String) (handlerOk : Bool) :
    StreamSt :=
  match xreadGroupOne st g consumer with
  | none => st
  | some (st1, id, _data) => xack st1 g id

/-- A stream with one already-consumed entry and the consumer group at its
tail — the state `EnsureGroup` leaves after a first publish. -/
def exStreamMid : StreamSt :=
  { created := true, nextId := 2, entries := [(1, "init")],
    groups := [("g", { cursor := 1, pending := [] })] }

/-- `exStreamMid` after one more `Publish`: entry 2 awaits delivery. -/
def exStream : StreamSt := Publish exStreamMid "update"

/-- C2, counterexample: `exStreamMid` arises from `Publish` then
`EnsureGroup`; after publishing entry 2, one `Subscribe` iteration whose
handler FAILS (`handlerOk = false`) still acknowledges entry 2 — the pending
list ends up empty, where the claim requires the entry to stay pending. -/
theorem subscribe_acks_failed_handler :
    EnsureGroup (Publish StreamSt.empty "init") "g" = Except.ok exStreamMid ∧
      xreadGroupOne exStream "g" "c" =
        some (setGroup exStream "g" { cursor := 2, pending := [(2, "c")] }, 2, "update") ∧
      lookupGroup (subscribeIteration exStream "g" "c" false) "g" =
        some { cursor := 2, pending := [] } := by
  refine ⟨by rfl, by decide, by decide⟩

theorem find_map_setKey (l : List (String × GroupSt)) (g : String) (gs0 gs : GroupSt)
    (h : (l.find? (fun p => p.1 = g)).map Prod.snd = some gs0) :
    ((l.map (fun p => if p.1 = g then (g, gs) else p)).find?
        (fun p => p.1 = g)).map Prod.snd = some gs := by
  induction l with
  | nil => simp at h
  | cons x xs ih =>
    by_cases hx : x.1 = g
    · simp [hx]
    · rw [List.find?_cons_of_neg _ (by simpa using hx)] at h
      simp only [List.map_cons, if_neg hx]
      rw [List.find?_cons_of_neg _ (by simpa using hx)]
      exact ih h

theorem lookupGroup_setGroup {st : StreamSt} {g : String} {gs0 : GroupSt}
    (gs : GroupSt) (h : lookupGroup st g = some gs0) :
    lookupGroup (setGroup st g gs) g = some gs := by
  unfold lookupGroup setGroup at *
  exact find_map_setKey st.groups g gs0 gs h

/-- C2 (amended): for every entry the loop reads, acknowledgment is
unconditional — the iteration's result does not depend on the handler
outcome at all, and the delivered entry is never left in the pending list.
Handler-side failures are logged inside the handler itself (which swallows
its own errors) and never reach the loop. -/
theorem subscribeIteration_acks_unconditionally (st : StreamSt)
    (g c : String) (b : Bool) (st1 : StreamSt) (id : Nat) (data : String)
    (hread : xreadGroupOne st g c = some (st1, id, data)) :
    subscribeIteration st g c b = xack st1 g id ∧
      subscribeIteration st g c b = subscribeIteration st g c true ∧
      ∀ gs, lookupGroup (subscribeIteration st g c b) g = some gs →
        gs.pending.all (fun p => ¬ p.1 = id) := by
  refine ⟨by simp [subscribeIteration, hread], by simp [subscribeIteration, hread], ?_⟩
  intro gs hgs
  simp only [subscribeIteration, hread] at hgs
  -- unpack what the read produced
  unfold xreadGroupOne at hread
  rcases hg0 : lookupGroup st g with - | gs0
  · rw [hg0] at hread; cases hread
  · rw [hg0] at hread
    dsimp only at hread
    rcases hf : st.entries.find? (fun e => gs0.cursor < e.1) with - | e
    · rw [hf] at hread; cases hread
    · rw [hf] at hread
      dsimp only at hread
      injection hread with hread1
      injection hread1 with ha hb
      injection hb with hb1 hb2
      subst ha hb1
      have hl1 : lookupGroup (setGroup st g
          { cursor := e.1, pending := gs0.pending ++ [(e.1, c)] }) g =
          some { cursor := e.1, pending := gs0.pending ++ [(e.1, c)] } :=
        lookupGroup_setGroup _ hg0
      simp only [xack, hl1] at hgs
      have hl2 : lookupGroup (setGroup (setGroup st g
          { cursor := e.1, pending := gs0.pending ++ [(e.1, c)] }) g
          { cursor := e.1
            pending := (gs0.pending ++ [(e.1, c)]).filter (fun p => ¬ p.1 = e.1) }) g =
          some { cursor := e.1
                 pending := (gs0.pending ++ [(e.1, c)]).filter (fun p => ¬ p.1 = e.1) } :=
        lookupGroup_setGroup _ hl1
      rw [hl2] at hgs
      injection hgs with hgs1
      subst hgs1
      refine List.all_eq_true.mpr (fun p hp => ?_)
      have hp2 : p ∈ gs0.pending ∧ ¬ p.1 = e.1 := by simpa using hp
      simpa using hp2.2

/-- Witness for `subscribeIteration_acks_unconditionally` on `exStream`. -/
theorem subscribeIteration_acks_witness :
    xreadGroupOne exStream "g" "c" =
        some (setGroup exStream "g" { cursor := 2, pending := [(2, "c")] }, 2, "update") ∧
      (subscribeIteration exStream "g" "c" false =
          xack (setGroup exStream "g" { cursor := 2, pending := [(2, "c")] }) "g" 2 ∧
        subscribeIteration exStream "g" "c" false =
          subscribeIteration exStream "g" "c" true ∧
        ∀ gs, lookupGroup (subscribeIteration exStream "g" "c" false) "g" = some gs →
          gs.pending.all (fun p => ¬ p.1 = 2)) :=
  ⟨by decide,
    subscribeIteration_acks_unconditionally exStream "g" "c" false
      (setGroup exStream "g" { cursor := 2, pending := [(2, "c")] }) 2 "update" (by decide)⟩

/-! ## C1: the UpdateEntryScore use case (internal/service/leaderboard.go)

System state seen by `LeaderBoardSvc`: the plain key/value cache, the
sorted sets, the streams (all three live in the same Redis, keyed by
strings) and the metadata repository (Postgres), modelled by the set of
existing leaderboard ids.  A leaderboard's metadata record is opaque here
and represented by its id. -/

structure AppState where
  kv : List (String × String)
  zsets : List (String × ZSet)
  streams : List (String × StreamSt)
  repo : List String
deriving DecidableEq, Repr

/-- Upsert into a string-keyed association list. -/
def assocSet {α : Type} (l : List (String × α)) (k : String) (v : α) :
    List (String × α) :=
  if l.any (fun p => p.1 = k) then
    l.map (fun p => if p.1 = k then (k, v) else p)
  else l ++ [(k, v)]

def kvGet (st : AppState) (k : String) : Option String :=
  (st.kv.find? (fun p => p.1 = k)).map Prod.snd

def zsetAt (st : AppState) (k : String) : ZSet :=
  ((st.zsets.find? (fun p => p.1 = k)).map Prod.snd).getD []

/-- Modelled from the spec: `internal/shared/constants` is not among the
sources; only these cache-key prefixes' existence and distinctness matter. -/
def CACHE_LEADERBOARD_PREFIX : String := "leaderboard:"

/-- Modelled from the spec: see `CACHE_LEADERBOARD_PREFIX`. -/
def CACHE_LEADERBOARD_ENTRIES_PREFIX : String := "leaderboard-entries:"

def leaderboardCacheKey (id : String) : String := CACHE_LEADERBOARD_PREFIX ++ id

def entriesCacheKey (id : String) : String := CACHE_LEADERBOARD_ENTRIES_PREFIX ++ id

/-- `ILeaderboardRepository.FindOneById`: `nil` (`none`) when absent. -/
def FindOneById (st : AppState) (id : String) : Option String :=
  if st.repo.contains id then some id else none

/-- `LeaderBoardSvc.getCacheLeaderboard`: try the key/value cache; on a miss
load from the repository (error when absent) and write it back to the cache
with the default TTL (TTL not modelled). -/
def getCacheLeaderboard (st : AppState) (id : String) :
    Except String (AppState × String) :=
  match kvGet st (leaderboardCacheKey id) with
  | some v => .ok (st, v)
  | none =>
    match FindOneById st id with
    | none => .error "ErrLeaderboardNotFound"
    | some lb =>
      .ok ({ st with kv := assocSet st.kv (leaderboardCacheKey lb) lb }, lb)

/-- `LeaderBoardSvc.UpdateEntryScore`: resolve the leaderboard, then
`cache.AddScore(entriesCacheKey(leaderboardID), entryID, score)` and return.
(The `AddScore` transport-failure path — Redis unreachable — is outside the
model; the claim concerns the successful path.) -/
def UpdateEntryScore (st : AppState) (lbId entryId : String) (score : Score) :
    Except String AppState :=
  match getCacheLeaderboard st lbId with
  | .error e => .error e
  | .ok (st1, _lb) =>
    .ok { st1 with
      zsets := assocSet st1.zsets (entriesCacheKey lbId)
        (AddScore (zsetAt st1 (entriesCacheKey lbId)) entryId score) }

/-- C1, refuted: a successful `UpdateEntryScore` performs the score write
but leaves every stream untouched — no event is ever published onto the
leaderboard-updates log (there is no `Publish` call in the function), so
there is no publish failure to report either.  The README's documented
score-update flow (step 4: publish event to Redis Stream) and the existing
stream subscriber both expect the publish to happen. -/
theorem updateEntryScore_never_publishes (st : AppState)
    (lbId entryId : String) (score : Score) (st1 : AppState)
    (h : UpdateEntryScore st lbId entryId score = .ok st1) :
    st1.streams = st.streams := by
  unfold UpdateEntryScore getCacheLeaderboard at h
  rcases hkv : kvGet st (leaderboardCacheKey lbId) with - | v <;> rw [hkv] at h
  · rcases hfind : FindOneById st lbId with - | lb <;> rw [hfind] at h
    · cases h
    · dsimp only at h
      injection h with h1
      rw [← h1]
  · dsimp only at h
    injection h with h1
    rw [← h1]

/-- A one-leaderboard system state with everything else empty. -/
def exApp : AppState := { kv := [], zsets := [], streams := [], repo := ["lb1"] }

/-- `exApp` after a successful `UpdateEntryScore("lb1", "p1", 100)`. -/
def exAppAfter : AppState :=
  { kv := [("leaderboard:lb1", "lb1")],
    zsets := [("leaderboard-entries:lb1", [("p1", 100)])],
    streams := [], repo := ["lb1"] }

/-- Witness for `updateEntryScore_never_publishes`: the concrete update
succeeds, writes the score, and the streams are unchanged (still empty). -/
theorem updateEntryScore_never_publishes_witness :
    UpdateEntryScore exApp "lb1" "p1" 100 = Except.ok exAppAfter ∧
      exAppAfter.streams = exApp.streams :=
  ⟨by rfl,
    updateEntryScore_never_publishes exApp "lb1" "p1" 100 exAppAfter (by rfl)⟩

/-! ## The WebSocket hub (presentation/socket/broadcaster.go)

`Hub.Run` serialises every registry mutation: registrations (sent by
`Client.handleMessage` on a subscribe), unregistrations (sent by `readPump`
when a connection dies) and broadcast deliveries all run in one loop, so the
hub is modelled as a state machine whose steps are those messages.  Client
ids are naturals; `env` gives each client its fixed optional `userID` (`""`
when absent).  A client's bounded `send` channel (`make(chan []byte, 256)`)
is modelled by its length `queue` plus a `closed` flag; the message bytes
themselves never influence the registry.  `registered` is ghost
instrumentation (not a Go field): it records whether the client has been
registered and not since unregistered, which the invariant claim quantifies
over. -/

abbrev Cid := Nat

structure BroadcastMessage where
  topic : String
  userId : String
deriving DecidableEq, Repr

def TopicGlobal : String := "global"

/-- Capacity of a client's outbound channel (`make(chan []byte, 256)`). -/
def sendCap : Nat := 256

structure HubState where
  clients : String → Cid → Bool
  allClients : Cid → Bool
  userClients : String → Cid → Bool
  subs : Cid → String → Bool
  queue : Cid → Nat
  closed : Cid → Bool
  registered : Cid → Bool

def initHub : HubState :=
  { clients := fun _ _ => false, allClients := fun _ => false,
    userClients := fun _ _ => false, subs := fun _ _ => false,
    queue := fun _ => 0, closed := fun _ => false, registered := fun _ => false }

/-- The `registration := <-h.register` case of `Hub.Run`: add to the topic
index, the global index and (when the client has a user id) the user index. -/
def hubRegister (env : Cid → String) (st : HubState) (c : Cid) (t : String) : HubState :=
  { st with
    clients := fun t' c' => if t' = t ∧ c' = c then true else st.clients t' c'
    allClients := fun c' => if c' = c then true else st.allClients c'
    userClients := fun u c' =>
      if ¬ env c = "" ∧ u = env c ∧ c' = c then true else st.userClients u c'
    registered := fun c' => if c' = c then true else st.registered c' }

/-- The `client := <-h.unregister` case of `Hub.Run`: remove from the global
index, from the client's user set, and from the topic sets of exactly the
topics currently in `client.subscriptions`; close the send channel. -/
def hubUnregister (env : Cid → String) (st : HubState) (c : Cid) : HubState :=
  { st with
    clients := fun t c' =>
      if c' = c ∧ st.subs c t = true then false else st.clients t c'
    allClients := fun c' => if c' = c then false else st.allClients c'
    userClients := fun u c' =>
      if ¬ env c = "" ∧ u = env c ∧ c' = c then false else st.userClients u c'
    closed := fun c' => if c' = c then true else st.closed c'
    registered := fun c' => if c' = c then false else st.registered c' }

/-- `Client.sendMessage`: non-blocking enqueue onto the client's own channel
(select/default — the confirmation is dropped when the buffer is full). -/
def tryEnqueue (st : HubState) (c : Cid) : HubState :=
  if st.queue c < sendCap then
    { st with queue := fun c' => if c' = c then st.queue c' + 1 else st.queue c' }
  else st

/-- `Client.handleMessage`, subscribe case (for non-empty topics): record the
topic in the client's subscription map, register with the hub, then enqueue
the confirmation message. -/
def clientSubscribe (env : Cid → String) (st : HubState) (c : Cid) (t : String) : HubState :=
  if t = "" then st
  else
    tryEnqueue
      (hubRegister env
        { st with subs := fun c' t' => if c' = c ∧ t' = t then true else st.subs c' t' }
        c t) c

/-- `Client.handleMessage`, unsubscribe case: remove the topic from the
client's OWN subscription map and enqueue the confirmation — the hub's topic
index is never told. -/
def clientUnsubscribe (st : HubState) (c : Cid) (t : String) : HubState :=
  if t = "" then st
  else
    tryEnqueue
      { st with subs := fun c' t' => if c' = c ∧ t' = t then false else st.subs c' t' } c

/-- The target set the `message := <-h.broadcast` case iterates. -/
def broadcastTarget (st : HubState) (msg : BroadcastMessage) : Cid → Bool :=
  if ¬ msg.userId = "" then st.userClients msg.userId
  else if msg.topic = "" ∨ msg.topic = TopicGlobal then st.allClients
  else st.clients msg.topic

/-- Whether the delivery finds the client's queue full and evicts it
(the `default:` arm: close the channel, delete from the target set). -/
def evictedBy (st : HubState) (target : Cid → Bool) (c : Cid) : Bool :=
  target c && decide (sendCap ≤ st.queue c)

def deliverQueue (st : HubState) (target : Cid → Bool) : Cid → Nat :=
  fun c => if target c = true ∧ st.queue c < sendCap then st.queue c + 1 else st.queue c

def deliverClosed (st : HubState) (target : Cid → Bool) : Cid → Bool :=
  fun c => st.closed c || evictedBy st target c

/-- The broadcast case of `Hub.Run`: pick the target set (user set when
`UserID` is set, the global set when the topic is empty or "global", the
topic's set otherwise), enqueue onto every member with room, and evict — by
closing the channel and deleting from the TARGET map only — every member
whose queue is full.  The per-client `select`/`default` makes the whole step
non-blocking, which the model reflects by being a total function. -/
def hubBroadcastStep (st : HubState) (msg : BroadcastMessage) : HubState :=
  if ¬ msg.userId = "" then
    let target := st.userClients msg.userId
    { st with
      queue := deliverQueue st target
      closed := deliverClosed st target
      userClients := fun u c =>
        if u = msg.userId then st.userClients u c && ! evictedBy st target c
        else st.userClients u c }
  else if msg.topic = "" ∨ msg.topic = TopicGlobal then
    let target := st.allClients
    { st with
      queue := deliverQueue st target
      closed := deliverClosed st target
      allClients := fun c => st.allClients c && ! evictedBy st target c }
  else
    let target := st.clients msg.topic
    { st with
      queue := deliverQueue st target
      closed := deliverClosed st target
      clients := fun t c =>
        if t = msg.topic then st.clients t c && ! evictedBy st target c
        else st.clients t c }

/-- `Hub.Broadcast(topic, ...)`: enqueue a `BroadcastMessage{Topic: topic}`
for the hub loop (modelled as the loop processing it). -/
def HubBroadcast (st : HubState) (topic : String) : HubState :=
  hubBroadcastStep st { topic := topic, userId := "" }

/-- `Hub.BroadcastToUser(userID, ...)`: `BroadcastMessage{UserID: userID}`. -/
def HubBroadcastToUser (st : HubState) (uid : String) : HubState :=
  hubBroadcastStep st { topic := "", userId := uid }

/-- `Hub.BroadcastToAll(...)`: `BroadcastMessage{Topic: "global"}`. -/
def HubBroadcastToAll (st : HubState) : HubState :=
  hubBroadcastStep st { topic := TopicGlobal, userId := "" }

/-- C10: broadcasting with an empty topic string takes the same
global-delivery branch as `BroadcastToAll` — it reaches the entire global
client set, not no one: the hub transition is identical. -/
theorem broadcast_empty_topic_is_global (st : HubState) :
    HubBroadcast st "" = HubBroadcastToAll st := by
  unfold HubBroadcast HubBroadcastToAll hubBroadcastStep
  simp [TopicGlobal]

/-- Reachable hub states.  Subscribe/unsubscribe messages come from the
connection's read pump and the unregister from its termination, so they can
only occur while the connection is live (its send channel not yet closed) —
and at most one unregister per connection. -/
inductive Reach (env : Cid → String) : HubState → Prop where
  | init : Reach env initHub
  | subscribe {st : HubState} (c : Cid) (t : String) : Reach env st →
      st.closed c = false → Reach env (clientSubscribe env st c t)
  | unsubscribe {st : HubState} (c : Cid) (t : String) : Reach env st →
      st.closed c = false → Reach env (clientUnsubscribe st c t)
  | unregister {st : HubState} (c : Cid) : Reach env st →
      st.closed c = false → Reach env (hubUnregister env st c)
  | bcast {st : HubState} (msg : BroadcastMessage) : Reach env st →
      Reach env (hubBroadcastStep st msg)

/-- The runs of `Reach` with no unsubscribe and in which no delivery ever
finds a full queue (no slow-consumer eviction). -/
inductive ReachG (env : Cid → String) : HubState → Prop where
  | init : ReachG env initHub
  | subscribe {st : HubState} (c : Cid) (t : String) : ReachG env st →
      st.closed c = false → ReachG env (clientSubscribe env st c t)
  | unregister {st : HubState} (c : Cid) : ReachG env st →
      st.closed c = false → ReachG env (hubUnregister env st c)
  | bcast {st : HubState} (msg : BroadcastMessage) : ReachG env st →
      (∀ c, broadcastTarget st msg c = true → st.queue c < sendCap) →
      ReachG env (hubBroadcastStep st msg)

/-- The invariant exactly as the claim states it: a client is in the global
set iff it is registered; a registered client is in a topic's set iff that
topic is in its subscription set; a client is in at most one user-id set. -/
def SpecInv (st : HubState) : Prop :=
  (∀ c, st.allClients c = true ↔ st.registered c = true) ∧
    (∀ c, st.registered c = true →
      ∀ t, (st.clients t c = true ↔ st.subs c t = true)) ∧
    (∀ c u u', st.userClients u c = true → st.userClients u' c = true → u = u')

/-- The inductive strengthening of `SpecInv` that the good runs preserve. -/
def InvFull (env : Cid → String) (st : HubState) : Prop :=
  (∀ c, st.allClients c = st.registered c) ∧
    (∀ t c, st.clients t c = (st.registered c && st.subs c t)) ∧
    (∀ c, st.closed c = false → st.registered c = false →
      ∀ t, st.subs c t = false) ∧
    (∀ u c, st.userClients u c = true → u = env c ∧ ¬ env c = "")

theorem invFull_init (env : Cid → String) : InvFull env initHub := by
  refine ⟨fun c => rfl, fun t c => rfl, fun c _ _ t => rfl, fun u c h => ?_⟩
  simp [initHub] at h

theorem invFull_implies_specInv {env : Cid → String} {st : HubState}
    (h : InvFull env st) : SpecInv st := by
  obtain ⟨h1, h2, h3, h4⟩ := h
  refine ⟨fun c => by rw [h1 c], ?_, ?_⟩
  · intro c hreg t
    rw [h2 t c, hreg]
    simp
  · intro c u u' hu hu'
    rw [(h4 u c hu).1, (h4 u' c hu').1]

theorem clientSubscribe_closed (env : Cid → String) (st : HubState) (c : Cid)
    (t : String) (c' : Cid) :
    (clientSubscribe env st c t).closed c' = st.closed c' := by
  unfold clientSubscribe tryEnqueue hubRegister
  split_ifs <;> simp_all

theorem clientSubscribe_registered (env : Cid → String) (st : HubState) (c : Cid)
    (t : String) (ht : ¬ t = "") (c' : Cid) :
    (clientSubscribe env st c t).registered c' =
      if c' = c then true else st.registered c' := by
  unfold clientSubscribe tryEnqueue hubRegister
  rw [if_neg ht]
  split_ifs <;> simp_all

theorem clientSubscribe_allClients (env : Cid → String) (st : HubState) (c : Cid)
    (t : String) (ht : ¬ t = "") (c' : Cid) :
    (clientSubscribe env st c t).allClients c' =
      if c' = c then true else st.allClients c' := by
  unfold clientSubscribe tryEnqueue hubRegister
  rw [if_neg ht]
  split_ifs <;> simp_all

theorem clientSubscribe_clients (env : Cid → String) (st : HubState) (c : Cid)
    (t : String) (ht : ¬ t = "") (t' : String) (c' : Cid) :
    (clientSubscribe env st c t).clients t' c' =
      if t' = t ∧ c' = c then true else st.clients t' c' := by
  unfold clientSubscribe tryEnqueue hubRegister
  rw [if_neg ht]
  split_ifs <;> simp_all

theorem clientSubscribe_subs (env : Cid → String) (st : HubState) (c : Cid)
    (t : String) (ht : ¬ t = "") (c' : Cid) (t' : String) :
    (clientSubscribe env st c t).subs c' t' =
      if c' = c ∧ t' = t then true else st.subs c' t' := by
  unfold clientSubscribe tryEnqueue hubRegister
  rw [if_neg ht]
  split_ifs <;> simp_all

theorem clientSubscribe_userClients (env : Cid → String) (st : HubState) (c : Cid)
    (t : String) (ht : ¬ t = "") (u : String) (c' : Cid) :
    (clientSubscribe env st c t).userClients u c' =
      if ¬ env c = "" ∧ u = env c ∧ c' = c then true else st.userClients u c' := by
  unfold clientSubscribe tryEnqueue hubRegister
  rw [if_neg ht]
  split_ifs <;> simp_all

theorem bool_eq_false {b : Bool} (h : ¬ b = true) : b = false := by
  revert h; cases b <;> simp

theorem invFull_subscribe (env : Cid → String) {st : HubState} (c : Cid) (t : String)
    (h : InvFull env st) (hcl : st.closed c = false) :
    InvFull env (clientSubscribe env st c t) := by
  obtain ⟨h1, h2, h3, h4⟩ := h
  by_cases ht : t = ""
  · unfold clientSubscribe
    rw [if_pos ht]
    exact ⟨h1, h2, h3, h4⟩
  · refine ⟨?_, ?_, ?_, ?_⟩
    · intro c'
      rw [clientSubscribe_allClients env st c t ht c',
        clientSubscribe_registered env st c t ht c']
      by_cases hc : c' = c <;> simp [hc, h1 c']
    · intro t' c'
      rw [clientSubscribe_clients env st c t ht t' c',
        clientSubscribe_registered env st c t ht c',
        clientSubscribe_subs env st c t ht c' t']
      by_cases hc : c' = c
      · subst hc
        by_cases ht' : t' = t
        · simp [ht']
        · simp only [ht', and_true, and_false, if_false, if_true, if_pos rfl]
          simp only [h2 t' c']
          by_cases hreg : st.registered c' = true
          · simp [hreg]
          · have hreg2 := bool_eq_false hreg
            simp [hreg2, h3 c' hcl hreg2 t']
      · simp [hc, h2 t' c']
    · intro c' hcl' hreg' t'
      rw [clientSubscribe_closed env st c t c'] at hcl'
      rw [clientSubscribe_registered env st c t ht c'] at hreg'
      rw [clientSubscribe_subs env st c t ht c' t']
      by_cases hc : c' = c
      · simp [hc] at hreg'
      · simp only [hc, false_and, if_false]
        exact h3 c' hcl' (by simpa [hc] using hreg') t'
    · intro u c' hu
      rw [clientSubscribe_userClients env st c t ht u c'] at hu
      by_cases hcond : ¬ env c = "" ∧ u = env c ∧ c' = c
      · obtain ⟨he, hu2, hc2⟩ := hcond
        subst hc2
        exact ⟨hu2, he⟩
      · rw [if_neg hcond] at hu
        exact h4 u c' hu

theorem invFull_unregister (env : Cid → String) {st : HubState} (c : Cid)
    (h : InvFull env st) : InvFull env (hubUnregister env st c) := by
  obtain ⟨h1, h2, h3, h4⟩ := h
  refine ⟨?_, ?_, ?_, ?_⟩
  · intro c'
    simp only [hubUnregister]
    by_cases hc : c' = c <;> simp [hc, h1 c']
  · intro t' c'
    simp only [hubUnregister]
    by_cases hc : c' = c
    · subst hc
      by_cases hs : st.subs c' t' = true
      · simp [hs]
      · have hs2 := bool_eq_false hs
        simp [hs2, h2 t' c']
    · simp [hc, h2 t' c']
  · intro c' hcl' hreg' t'
    simp only [hubUnregister] at hcl' hreg' ⊢
    by_cases hc : c' = c
    · simp [hc] at hcl'
    · simp only [hc, if_false] at hreg'
      exact h3 c' (by simpa [hc] using hcl') hreg' t'
  · intro u c' hu
    simp only [hubUnregister] at hu
    by_cases hcond : ¬ env c = "" ∧ u = env c ∧ c' = c
    · rw [if_pos hcond] at hu
      cases hu
    · rw [if_neg hcond] at hu
      exact h4 u c' hu

theorem evictedBy_false {st : HubState} {target : Cid → Bool}
    (hq : ∀ c, target c = true → st.queue c < sendCap) (c : Cid) :
    evictedBy st target c = false := by
  unfold evictedBy
  cases hT : target c with
  | false => simp
  | true =>
    have := hq c hT
    simp [Nat.not_le.mpr this]

/-- A broadcast in which no target client's queue is full changes only the
queue lengths: every index, subscription map, closed flag and the ghost
registration are untouched. -/
theorem hubBroadcastStep_noevict (st : HubState) (msg : BroadcastMessage)
    (hq : ∀ c, broadcastTarget st msg c = true → st.queue c < sendCap) :
    (∀ t c, (hubBroadcastStep st msg).clients t c = st.clients t c) ∧
      (∀ c, (hubBroadcastStep st msg).allClients c = st.allClients c) ∧
      (∀ u c, (hubBroadcastStep st msg).userClients u c = st.userClients u c) ∧
      (∀ c t, (hubBroadcastStep st msg).subs c t = st.subs c t) ∧
      (∀ c, (hubBroadcastStep st msg).closed c = st.closed c) ∧
      (∀ c, (hubBroadcastStep st msg).registered c = st.registered c) := by
  unfold hubBroadcastStep
  unfold broadcastTarget at hq
  split_ifs at hq ⊢ with hu htop <;>
  · have hev := evictedBy_false hq
    refine ⟨?_, ?_, ?_, ?_, ?_, ?_⟩
    · intro t c
      first
        | rfl
        | (dsimp only
           by_cases htt : t = msg.topic <;> simp [htt, hev c])
    · intro c
      first
        | rfl
        | (dsimp only
           simp [hev c])
    · intro u c
      first
        | rfl
        | (dsimp only
           by_cases huu : u = msg.userId <;> simp [huu, hev c])
    · intro c t
      rfl
    · intro c
      simp [deliverClosed, hev c]
    · intro c
      rfl

theorem invFull_bcast (env : Cid → String) {st : HubState} (msg : BroadcastMessage)
    (h : InvFull env st)
    (hq : ∀ c, broadcastTarget st msg c = true → st.queue c < sendCap) :
    InvFull env (hubBroadcastStep st msg) := by
  obtain ⟨hf1, hf2, hf3, hf4, hf5, hf6⟩ := hubBroadcastStep_noevict st msg hq
  obtain ⟨h1, h2, h3, h4⟩ := h
  refine ⟨?_, ?_, ?_, ?_⟩
  · intro c
    rw [hf2 c, hf6 c]
    exact h1 c
  · intro t c
    rw [hf1 t c, hf6 c, hf4 c t]
    exact h2 t c
  · intro c hcl hreg t
    rw [hf4 c t]
    exact h3 c (by rw [← hf5 c]; exact hcl) (by rw [← hf6 c]; exact hreg) t
  · intro u c hu
    rw [hf3 u c] at hu
    exact h4 u c hu

/-- C4 (amended): over runs with no unsubscribe and no slow-consumer
eviction, the hub registry satisfies the claimed invariant: a client is in
the global set iff registered, a registered client is in a topic's set iff
it subscribed to that topic, and a client is in at most one user-id set. -/
theorem hub_invariant_good_runs (env : Cid → String) (st : HubState)
    (h : ReachG env st) : SpecInv st := by
  have hfull : InvFull env st := by
    induction h with
    | init => exact invFull_init env
    | subscribe c t hr hcl ih => exact invFull_subscribe env c t ih hcl
    | unregister c hr hcl ih => exact invFull_unregister env c ih
    | bcast msg hr hq ih => exact invFull_bcast env msg ih hq
  exact invFull_implies_specInv hfull

/-- An environment in which no client carries a user id. -/
def env0 : Cid → String := fun _ => ""

/-- The hub state reached by: client 0 subscribes to "lb", then
unsubscribes from "lb". -/
def c4State : HubState := clientUnsubscribe (clientSubscribe env0 initHub 0 "lb") 0 "lb"

/-- C4, counterexample: after subscribe("lb") then unsubscribe("lb") —
a reachable two-operation history — client 0 is still registered and still
present in the hub's "lb" topic set, but "lb" is no longer in its
subscription set, because the unsubscribe handler updates only the
client-side map and never tells the hub.  The claimed invariant fails. -/
theorem hub_unsubscribe_breaks_invariant :
    Reach env0 c4State ∧ c4State.registered 0 = true ∧
      c4State.clients "lb" 0 = true ∧ c4State.subs 0 "lb" = false ∧
      ¬ SpecInv c4State := by
  refine ⟨?_, by decide, by decide, by decide, ?_⟩
  · exact Reach.unsubscribe 0 "lb"
      (Reach.subscribe 0 "lb" Reach.init (by decide)) (by decide)
  · intro hinv
    obtain ⟨-, h2, -⟩ := hinv
    have h3 := (h2 0 (by decide) "lb").mp (by decide)
    exact absurd h3 (by decide)

/-- Witness for `hub_invariant_good_runs` at the one-subscribe state. -/
theorem hub_invariant_good_runs_witness :
    SpecInv (clientSubscribe env0 initHub 0 "lb") :=
  hub_invariant_good_runs env0 (clientSubscribe env0 initHub 0 "lb")
    (ReachG.subscribe 0 "lb" ReachG.init (by decide))

/-! ## C3: broadcast delivery to a client with a full queue -/

/-- C3 (amended): whenever ANY broadcast delivery — user-directed, global,
or topic-scoped — finds a target client whose queue is full, that client's
send channel is closed, its queue is left as it was, and it is deleted only
from the single index being iterated: the user's set for a user broadcast,
the global set for a global broadcast, the topic's set for a topic
broadcast; every other index still holds the client.  The broadcaster never
blocks (the per-client select/default makes the step a total function). -/
theorem broadcast_full_queue_partial_eviction (st : HubState)
    (msg : BroadcastMessage) (c : Cid)
    (hmem : broadcastTarget st msg c = true) (hfull : sendCap ≤ st.queue c) :
    (hubBroadcastStep st msg).closed c = true ∧
      (hubBroadcastStep st msg).queue c = st.queue c ∧
      (¬ msg.userId = "" →
        (hubBroadcastStep st msg).userClients msg.userId c = false ∧
        (∀ u, ¬ u = msg.userId →
          (hubBroadcastStep st msg).userClients u c = st.userClients u c) ∧
        (hubBroadcastStep st msg).allClients c = st.allClients c ∧
        (∀ t, (hubBroadcastStep st msg).clients t c = st.clients t c)) ∧
      (msg.userId = "" → msg.topic = "" ∨ msg.topic = TopicGlobal →
        (hubBroadcastStep st msg).allClients c = false ∧
        (∀ t, (hubBroadcastStep st msg).clients t c = st.clients t c) ∧
        (∀ u, (hubBroadcastStep st msg).userClients u c = st.userClients u c)) ∧
      (msg.userId = "" → ¬ msg.topic = "" → ¬ msg.topic = TopicGlobal →
        (hubBroadcastStep st msg).clients msg.topic c = false ∧
        (hubBroadcastStep st msg).allClients c = st.allClients c ∧
        (∀ t, ¬ t = msg.topic →
          (hubBroadcastStep st msg).clients t c = st.clients t c) ∧
        (∀ u, (hubBroadcastStep st msg).userClients u c = st.userClients u c)) := by
  unfold broadcastTarget at hmem
  unfold hubBroadcastStep
  by_cases hu : msg.userId = ""
  · rw [if_neg (not_not_intro hu)] at hmem ⊢
    by_cases ht : msg.topic = "" ∨ msg.topic = TopicGlobal
    · rw [if_pos ht] at hmem ⊢
      have hev : evictedBy st st.allClients c = true := by
        unfold evictedBy
        simp [hmem, hfull]
      refine ⟨?_, ?_, ?_, ?_, ?_⟩
      · dsimp only
        simp [deliverClosed, hev]
      · dsimp only
        simp [deliverQueue, Nat.not_lt.mpr hfull]
      · intro h
        exact absurd hu h
      · intro _ _
        refine ⟨?_, fun t => rfl, fun u => rfl⟩
        dsimp only
        simp [hev]
      · intro _ h1 h2
        rcases ht with h | h
        · exact absurd h h1
        · exact absurd h h2
    · rw [if_neg ht] at hmem ⊢
      have hev : evictedBy st (st.clients msg.topic) c = true := by
        unfold evictedBy
        simp [hmem, hfull]
      refine ⟨?_, ?_, ?_, ?_, ?_⟩
      · dsimp only
        simp [deliverClosed, hev]
      · dsimp only
        simp [deliverQueue, Nat.not_lt.mpr hfull]
      · intro h
        exact absurd hu h
      · intro _ h
        exact absurd h ht
      · intro _ _ _
        refine ⟨?_, rfl, ?_, fun u => rfl⟩
        · dsimp only
          simp [hev]
        · intro t htm
          dsimp only
          simp [htm]
  · rw [if_pos hu] at hmem ⊢
    have hev : evictedBy st (st.userClients msg.userId) c = true := by
      unfold evictedBy
      simp [hmem, hfull]
    refine ⟨?_, ?_, ?_, ?_, ?_⟩
    · dsimp only
      simp [deliverClosed, hev]
    · dsimp only
      simp [deliverQueue, Nat.not_lt.mpr hfull]
    · intro _
      refine ⟨?_, ?_, rfl, fun t => rfl⟩
      · dsimp only
        simp [hev]
      · intro u huu
        dsimp only
        simp [huu]
    · intro h
      exact absurd h hu
    · intro h
      exact absurd h hu

def msgT1 : BroadcastMessage := { topic := "t1", userId := "" }

/-- `k` consecutive topic-"t1" broadcasts. -/
def bcastNtimes : Nat → HubState → HubState
  | 0, st => st
  | k + 1, st => bcastNtimes k (hubBroadcastStep st msgT1)

/-- The topic branch of the broadcast step, fieldwise. -/
theorem topicStep_fields (st : HubState) (t : String) (ht1 : ¬ t = "")
    (ht2 : ¬ t = TopicGlobal) :
    (hubBroadcastStep st { topic := t, userId := "" }).clients =
        (fun t' c => if t' = t then st.clients t' c && ! evictedBy st (st.clients t) c
          else st.clients t' c) ∧
      (hubBroadcastStep st { topic := t, userId := "" }).allClients = st.allClients ∧
      (hubBroadcastStep st { topic := t, userId := "" }).userClients = st.userClients ∧
      (hubBroadcastStep st { topic := t, userId := "" }).closed =
        deliverClosed st (st.clients t) ∧
      (hubBroadcastStep st { topic := t, userId := "" }).queue =
        deliverQueue st (st.clients t) := by
  unfold hubBroadcastStep
  rw [if_neg (by simp), if_neg (by simp [ht1, ht2])]
  exact ⟨rfl, rfl, rfl, rfl, rfl⟩

theorem step_t1_facts (st : HubState)
    (h1 : st.clients "t1" 0 = true) (h2 : st.clients "t2" 0 = true)
    (h3 : st.allClients 0 = true) (h4 : st.closed 0 = false)
    (h5 : st.queue 0 < sendCap) :
    (hubBroadcastStep st msgT1).clients "t1" 0 = true ∧
      (hubBroadcastStep st msgT1).clients "t2" 0 = true ∧
      (hubBroadcastStep st msgT1).allClients 0 = true ∧
      (hubBroadcastStep st msgT1).closed 0 = false ∧
      (hubBroadcastStep st msgT1).queue 0 = st.queue 0 + 1 := by
  obtain ⟨hc, ha, -, hcl, hqu⟩ := topicStep_fields st "t1" (by decide) (by decide)
  have hev : evictedBy st (st.clients "t1") 0 = false := by
    unfold evictedBy
    simp [Nat.not_le.mpr h5]
  have hmsg : msgT1 = { topic := "t1", userId := "" } := rfl
  rw [hmsg]
  refine ⟨?_, ?_, ?_, ?_, ?_⟩
  · rw [hc]; simp [h1, hev]
  · rw [hc]; simp [h2]
  · rw [ha]; exact h3
  · rw [hcl]; simp [deliverClosed, h4, hev]
  · rw [hqu]; simp [deliverQueue, h1, h5]

theorem bcastNtimes_facts : ∀ (k : Nat) (st : HubState),
    st.clients "t1" 0 = true → st.clients "t2" 0 = true →
    st.allClients 0 = true → st.closed 0 = false →
    st.queue 0 + k ≤ sendCap →
    (bcastNtimes k st).clients "t1" 0 = true ∧
      (bcastNtimes k st).clients "t2" 0 = true ∧
      (bcastNtimes k st).allClients 0 = true ∧
      (bcastNtimes k st).closed 0 = false ∧
      (bcastNtimes k st).queue 0 = st.queue 0 + k := by
  intro k
  induction k with
  | zero =>
    intro st a b c d e
    exact ⟨a, b, c, d, rfl⟩
  | succ k ih =>
    intro st a b c d e
    have hstep := step_t1_facts st a b c d (by omega)
    have hk := ih (hubBroadcastStep st msgT1) hstep.1 hstep.2.1 hstep.2.2.1
      hstep.2.2.2.1 (by rw [hstep.2.2.2.2]; omega)
    rw [bcastNtimes]
    refine ⟨hk.1, hk.2.1, hk.2.2.1, hk.2.2.2.1, ?_⟩
    rw [hk.2.2.2.2, hstep.2.2.2.2]
    omega

theorem reach_bcastNtimes (env : Cid → String) :
    ∀ (k : Nat) (st : HubState), Reach env st → Reach env (bcastNtimes k st) := by
  intro k
  induction k with
  | zero => intro st h; exact h
  | succ k ih => intro st h; exact ih _ (Reach.bcast msgT1 h)

/-- Client 0 subscribed to "t1" and "t2" (queue holds the 2 confirmations). -/
def c3Base : HubState := clientSubscribe env0 (clientSubscribe env0 initHub 0 "t1") 0 "t2"

/-- `c3Base` after 254 "t1"-broadcasts: client 0's queue is full (256). -/
def c3Full : HubState := bcastNtimes 254 c3Base

/-- `c3Full` after one more "t1"-broadcast: the delivery finds the full
queue and evicts client 0 from the "t1" index. -/
def c3After : HubState := hubBroadcastStep c3Full msgT1

/-- C3, counterexample: in the reachable state `c3Full` client 0's queue is
full; the next "t1" broadcast closes its channel and removes it from the
"t1" set — but the client is NOT removed from every index: it is still in
the global set and still in the "t2" set, contradicting the claim that a
slow client is removed from every index it appears in. -/
theorem broadcast_full_queue_keeps_other_indices :
    Reach env0 c3After ∧ c3Full.queue 0 = sendCap ∧
      c3After.closed 0 = true ∧ c3After.clients "t1" 0 = false ∧
      c3After.allClients 0 = true ∧ c3After.clients "t2" 0 = true := by
  have hf := bcastNtimes_facts 254 c3Base (by decide) (by decide) (by decide)
    (by decide) (by decide)
  rw [← show c3Full = bcastNtimes 254 c3Base from rfl] at hf
  have hqfull : c3Full.queue 0 = sendCap := by
    rw [hf.2.2.2.2]
    decide
  obtain ⟨hc, ha, -, hcl, -⟩ := topicStep_fields c3Full "t1" (by decide) (by decide)
  have hev : evictedBy c3Full (c3Full.clients "t1") 0 = true := by
    unfold evictedBy
    simp [hf.1, hqfull]
  have hmsg : msgT1 = { topic := "t1", userId := "" } := rfl
  refine ⟨?_, hqfull, ?_, ?_, ?_, ?_⟩
  · exact Reach.bcast msgT1 (reach_bcastNtimes env0 254 c3Base
      (Reach.subscribe 0 "t2"
        (Reach.subscribe 0 "t1" Reach.init (by decide)) (by decide)))
  · show (hubBroadcastStep c3Full msgT1).closed 0 = true
    rw [hmsg, hcl]
    simp [deliverClosed, hev]
  · show (hubBroadcastStep c3Full msgT1).clients "t1" 0 = false
    rw [hmsg, hc]
    simp [hev]
  · show (hubBroadcastStep c3Full msgT1).allClients 0 = true
    rw [hmsg, ha]
    exact hf.2.2.1
  · show (hubBroadcastStep c3Full msgT1).clients "t2" 0 = true
    rw [hmsg, hc]
    simp [hf.2.1]

/-- Witness for `broadcast_full_queue_partial_eviction` at `c3Full` with a
topic broadcast to "t1": both hypotheses hold there, and the topic-branch
conclusions are extracted concretely. -/
theorem broadcast_full_queue_partial_eviction_witness :
    broadcastTarget c3Full msgT1 0 = true ∧ sendCap ≤ c3Full.queue 0 ∧
      (hubBroadcastStep c3Full msgT1).closed 0 = true ∧
      (hubBroadcastStep c3Full msgT1).queue 0 = c3Full.queue 0 ∧
      (hubBroadcastStep c3Full msgT1).clients "t1" 0 = false ∧
      (hubBroadcastStep c3Full msgT1).allClients 0 = c3Full.allClients 0 ∧
      (∀ t, ¬ t = "t1" →
        (hubBroadcastStep c3Full msgT1).clients t 0 = c3Full.clients t 0) ∧
      (∀ u, (hubBroadcastStep c3Full msgT1).userClients u 0 =
        c3Full.userClients u 0) := by
  have hf := bcastNtimes_facts 254 c3Base (by decide) (by decide) (by decide)
    (by decide) (by decide)
  rw [← show c3Full = bcastNtimes 254 c3Base from rfl] at hf
  have hqfull : c3Full.queue 0 = sendCap := by
    rw [hf.2.2.2.2]
    decide
  have hmem : broadcastTarget c3Full msgT1 0 = true := by
    have htgt : broadcastTarget c3Full msgT1 = c3Full.clients "t1" := by
      unfold broadcastTarget msgT1
      rw [if_neg (by simp), if_neg (by simp [TopicGlobal])]
    rw [htgt]
    exact hf.1
  obtain ⟨h1, h2, -, -, h5⟩ :=
    broadcast_full_queue_partial_eviction c3Full msgT1 0 hmem (le_of_eq hqfull.symm)
  obtain ⟨h5a, h5b, h5c, h5d⟩ := h5 rfl (by decide) (by decide)
  have hmt : msgT1.topic = "t1" := rfl
  rw [hmt] at h5a h5c
  exact ⟨hmem, le_of_eq hqfull.symm, h1, h2, h5a, h5b, h5c, h5d⟩
